import Mathlib

/- Verification of the voxel-rs physics core against its specification.

   The AABB collision engine is embedded from `src/physics/aabb.rs`
   (struct `AABB` with fields `x, y, z, size_x, size_y, size_z` and methods
   `intersect`, `intersect_point`, `intersect_world`, `move_check_collision`),
   the raycast from `common/src/physics/player.rs`
   (`PhysicsPlayer::get_pointed_at`), and the chunk-store update loop from
   `client/src/singleplayer.rs` (`SinglePlayer::update`).

   Real numbers (`f64` in the source) are modelled by `ℚ`: every numeric
   literal appearing in the code is an exact rational, and all operations the
   embedded code performs (addition, subtraction, multiplication, division,
   absolute value, signum, floor, ceil, comparisons) are exact on the traced
   values, so the discrete outcomes (loop branches, floors, returned faces and
   blocks) coincide with the double-precision run on the inputs considered
   here.  Loops are embedded with explicit structural fuel chosen at least as
   large as the bound the code's own loop-variant guarantees. -/

attribute [local semireducible] Rat.add Rat.sub Rat.mul Rat.inv

/-- A world, reduced to its block lookup.  The chunk storage itself lives
outside the physics core; `get_data`/`get_block` return the block id at an
integer coordinate, with 0 meaning air or a not-yet-loaded chunk, so a world
is faithfully represented by its (total) lookup function. -/
abbrev World : Type := ℤ → ℤ → ℤ → ℕ

/-- Embedding of `struct AABB` from `src/physics/aabb.rs`: a box anchored at
its minimum corner `(x, y, z)` with extents `(size_x, size_y, size_z)`. -/
structure AABB where
  x : ℚ
  y : ℚ
  z : ℚ
  size_x : ℚ
  size_y : ℚ
  size_z : ℚ
deriving DecidableEq, Repr

/-- Embedding of `AABB::intersect` (aabb.rs lines 42-53): false exactly when
the boxes are separated (with non-strict comparison, so touching boxes do not
intersect), true otherwise. -/
def AABB.intersect (self other : AABB) : Bool :=
  if (other.x ≥ self.x + self.size_x)
      ∨ (other.x + other.size_x ≤ self.x)
      ∨ (other.y ≥ self.y + self.size_y)
      ∨ (other.y + other.size_y ≤ self.y)
      ∨ (other.z ≥ self.z + self.size_z)
      ∨ (other.z + other.size_z ≤ self.z) then
    false
  else
    true

/-- Embedding of `AABB::intersect_world` (aabb.rs lines 67-85): scan every
unit cell in the integer bounding range (floor of the minimum corner to ceil
of the maximum corner on each axis) for a non-zero block. -/
def AABB.intersect_world (b : AABB) (w : World) : Bool :=
  let min_x := (b.x).floor
  let max_x := (b.x + b.size_x).ceil
  let min_y := (b.y).floor
  let max_y := (b.y + b.size_y).ceil
  let min_z := (b.z).floor
  let max_z := (b.z + b.size_z).ceil
  (List.range (max_x - min_x).toNat).any fun i =>
    (List.range (max_y - min_y).toNat).any fun j =>
      (List.range (max_z - min_z).toNat).any fun k =>
        w (min_x + i) (min_y + j) (min_z + k) != 0

/-- Rust's `f64::signum` restricted to the values it is applied to in
aabb.rs (`ddx`, `ddy`, `ddz`, never NaN): 1 for non-negative input
(Rust returns 1.0 for +0.0), -1 for negative input. -/
def rustSignum (q : ℚ) : ℚ :=
  if q < 0 then -1 else 1

/-- The binary-search `while` loop of `move_check_collision` (aabb.rs lines
118-127) on the state `(min_d, max_d)`, recursing on explicit fuel: while the
gap exceeds the 0.01 tolerance, test the midpoint and keep the half that
still brackets the collision boundary; once the gap is within tolerance,
return the state unchanged.  The gap halves exactly at each executed
iteration, so with enough fuel the fuel-exhausted branch is dead code
(`binSearchGo_reaches_tolerance`). -/
def binSearchGo (tst : ℚ → Bool) : ℕ → ℚ × ℚ → ℚ × ℚ
  | 0, p => p
  | n + 1, p =>
    if p.2 - p.1 > 1/100 then
      let med := (p.1 + p.2) / 2
      if tst med then binSearchGo tst n (p.1, med)
      else binSearchGo tst n (med, p.2)
    else
      p

/-- Iteration budget for the binary search: the source loop runs until the
gap `max_d - min_d` drops to the 0.01 tolerance, which (the gap halving each
time) happens after finitely many steps; `binSearchFuel` is a structural
bound on that count, proved sufficient in `binSearchGo_reaches_tolerance`. -/
def binSearchFuel (gap : ℚ) : ℕ :=
  (Rat.ceil (100 * gap)).toNat

/-- The binary-search loop of `move_check_collision`: run the loop from
`(min_d, max_d)` until the tolerance exit fires, and return the final
`min_d` (the largest fraction known not to collide). -/
def binSearch (tst : ℚ → Bool) (min_d max_d : ℚ) : ℚ :=
  (binSearchGo tst (binSearchFuel (max_d - min_d)) (min_d, max_d)).1

/-- The collision test probed by the x-axis binary search (aabb.rs lines
120-126): would the box intersect the world after moving `med * signum ddx`
along x from the position where the colliding sub-step was undone. -/
def probeX (w : World) (b : AABB) (ddx : ℚ) (med : ℚ) : Bool :=
  ({ b with x := b.x + med * rustSignum ddx } : AABB).intersect_world w

/-- The collision test probed by the y-axis binary search (aabb.rs lines
145-153). -/
def probeY (w : World) (b : AABB) (ddy : ℚ) (med : ℚ) : Bool :=
  ({ b with y := b.y + med * rustSignum ddy } : AABB).intersect_world w

/-- The collision test probed by the z-axis binary search (aabb.rs lines
172-180). -/
def probeZ (w : World) (b : AABB) (ddz : ℚ) (med : ℚ) : Bool :=
  ({ b with z := b.z + med * rustSignum ddz } : AABB).intersect_world w

/-- The x-axis sub-step loop of `move_check_collision` (aabb.rs lines
110-133), recursing on the remaining sub-step count: apply `ddx`; on the
first sub-step that makes the box intersect the world, undo it, binary-search
the largest non-colliding fraction of the sub-step, advance by half of it and
stop (`break`). -/
def sweepX (w : World) (ddx : ℚ) : ℕ → AABB → AABB
  | 0, b => b
  | n + 1, b =>
    let b' : AABB := { b with x := b.x + ddx }
    if b'.intersect_world w then
      let m := binSearch (fun med => probeX w b ddx med) 0 |ddx|
      { b with x := b.x + rustSignum ddx * m / 2 }
    else
      sweepX w ddx n b'

/-- The y-axis sub-step loop of `move_check_collision` (aabb.rs lines
138-159). -/
def sweepY (w : World) (ddy : ℚ) : ℕ → AABB → AABB
  | 0, b => b
  | n + 1, b =>
    let b' : AABB := { b with y := b.y + ddy }
    if b'.intersect_world w then
      let m := binSearch (fun med => probeY w b ddy med) 0 |ddy|
      { b with y := b.y + rustSignum ddy * m / 2 }
    else
      sweepY w ddy n b'

/-- The z-axis sub-step loop of `move_check_collision` (aabb.rs lines
164-186). -/
def sweepZ (w : World) (ddz : ℚ) : ℕ → AABB → AABB
  | 0, b => b
  | n + 1, b =>
    let b' : AABB := { b with z := b.z + ddz }
    if b'.intersect_world w then
      let m := binSearch (fun med => probeZ w b ddz med) 0 |ddz|
      { b with z := b.z + rustSignum ddz * m / 2 }
    else
      sweepZ w ddz n b'

/-- Embedding of `AABB::move_check_collision` (aabb.rs lines 89-190).
Returns the moved box together with the returned displacement vector.  If the
box already intersects the world the delta is applied unconditionally;
otherwise each axis is resolved in order x, y, z, splitting the axis delta
into `ceil(|d| / size)` sub-steps (the `as u32` cast clamps a negative ceil to
0, as Rust's saturating float-to-int cast does), and the per-axis result is
the coordinate after that axis's loop minus the coordinate before it. -/
def AABB.move_check_collision (b : AABB) (w : World) (dx dy dz : ℚ) :
    AABB × (ℚ × ℚ × ℚ) :=
  if b.intersect_world w then
    ({ b with x := b.x + dx, y := b.y + dy, z := b.z + dz }, (dx, dy, dz))
  else
    let x_step : ℕ := (Rat.ceil (|dx| / b.size_x)).toNat
    let y_step : ℕ := (Rat.ceil (|dy| / b.size_y)).toNat
    let z_step : ℕ := (Rat.ceil (|dz| / b.size_z)).toNat
    let ddx : ℚ := dx / (x_step : ℚ)
    let ddy : ℚ := dy / (y_step : ℚ)
    let ddz : ℚ := dz / (z_step : ℚ)
    let b1 := sweepX w ddx x_step b
    let b2 := sweepY w ddy y_step b1
    let b3 := sweepZ w ddz z_step b2
    (b3, (b1.x - b.x, b2.y - b1.y, b3.z - b2.z))

/-- The box of `move_check_collision` after the x-axis loop (aabb.rs line
133), in the non-embedded branch. -/
def moveB1 (b : AABB) (w : World) (dx : ℚ) : AABB :=
  sweepX w (dx / (((Rat.ceil (|dx| / b.size_x)).toNat : ℕ) : ℚ))
    (Rat.ceil (|dx| / b.size_x)).toNat b

/-- The box of `move_check_collision` after the y-axis loop (aabb.rs line
159); the sub-step count is computed from the original box's `size_y`. -/
def moveB2 (b : AABB) (w : World) (dx dy : ℚ) : AABB :=
  sweepY w (dy / (((Rat.ceil (|dy| / b.size_y)).toNat : ℕ) : ℚ))
    (Rat.ceil (|dy| / b.size_y)).toNat (moveB1 b w dx)

/-- The box of `move_check_collision` after the z-axis loop (aabb.rs line
186). -/
def moveB3 (b : AABB) (w : World) (dx dy dz : ℚ) : AABB :=
  sweepZ w (dz / (((Rat.ceil (|dz| / b.size_z)).toNat : ℕ) : ℚ))
    (Rat.ceil (|dz| / b.size_z)).toNat (moveB2 b w dx dy)

/-- Coordinate of a box on one axis, numbered x = 0, y = 1, z = 2. -/
def axGet (i : Fin 3) (b : AABB) : ℚ :=
  match i with
  | 0 => b.x
  | 1 => b.y
  | 2 => b.z

/-- Extent of a box on one axis. -/
def axSize (i : Fin 3) (b : AABB) : ℚ :=
  match i with
  | 0 => b.size_x
  | 1 => b.size_y
  | 2 => b.size_z

/-- Replace the coordinate of a box on one axis. -/
def axSet (i : Fin 3) (v : ℚ) (b : AABB) : AABB :=
  match i with
  | 0 => { b with x := v }
  | 1 => { b with y := v }
  | 2 => { b with z := v }

/-- Spec formulation of the per-axis sub-step loop, written once generically
over the axis (the source duplicates it per axis): apply sub-steps of `dd`
one at a time; on the first collision undo the sub-step, binary-search the
largest non-colliding fraction and advance by half of it. -/
def sweepAxis (w : World) (i : Fin 3) (dd : ℚ) : ℕ → AABB → AABB
  | 0, b => b
  | n + 1, b =>
    let b' := axSet i (axGet i b + dd) b
    if b'.intersect_world w then
      let m := binSearch
        (fun med => (axSet i (axGet i b + med * rustSignum dd) b).intersect_world w)
        0 |dd|
      axSet i (axGet i b + rustSignum dd * m / 2) b
    else
      sweepAxis w i dd n b'

/-- Number of equal sub-steps the spec prescribes for one axis:
`ceil(|d| / size-on-axis)`, clamped at zero from below. -/
def axSteps (i : Fin 3) (d : ℚ) (b : AABB) : ℕ :=
  (Rat.ceil (|d| / axSize i b)).toNat

/-- Spec formulation of one axis of movement resolution, following §4.1 of
the specification: split the axis delta `d` into `axSteps` equal sub-steps,
run the sub-step loop, and return the moved box together with the net
displacement achieved on that axis. -/
def resolveAxisSpec (w : World) (i : Fin 3) (d : ℚ) (b : AABB) : AABB × ℚ :=
  (sweepAxis w i (d / (axSteps i d b : ℚ)) (axSteps i d b) b,
   axGet i (sweepAxis w i (d / (axSteps i d b : ℚ)) (axSteps i d b) b) - axGet i b)

/-- A continuous position or direction, `nalgebra::Vector3<f64>` in the
source. -/
abbrev Vec3 : Type := ℚ × ℚ × ℚ

/-- Dot product of two vectors (`Vector3::dot`). -/
def dot3 (u v : Vec3) : ℚ :=
  u.1 * v.1 + u.2.1 * v.2.1 + u.2.2 * v.2.2

/-- The six candidate directions of `get_pointed_at` (player.rs lines 44-51),
pairing each axis direction with its opposite at adjacent indices:
0 ↦ -x, 1 ↦ +x, 2 ↦ -y, 3 ↦ +y, 4 ↦ -z, 5 ↦ +z. -/
def dirs : Fin 6 → Vec3
  | 0 => (-1, 0, 0)
  | 1 => (1, 0, 0)
  | 2 => (0, -1, 0)
  | 3 => (0, 1, 0)
  | 4 => (0, 0, -1)
  | 5 => (0, 0, 1)

/-- The six candidate plane coordinates of `get_pointed_at` (player.rs lines
53-60): floor and ceil of the current position on each axis. -/
def target (pos : Vec3) : Fin 6 → ℚ
  | 0 => ((pos.1.floor : ℤ) : ℚ)
  | 1 => ((pos.1.ceil : ℤ) : ℚ)
  | 2 => ((pos.2.1.floor : ℤ) : ℚ)
  | 3 => ((pos.2.1.ceil : ℤ) : ℚ)
  | 4 => ((pos.2.2.floor : ℤ) : ℚ)
  | 5 => ((pos.2.2.ceil : ℤ) : ℚ)

/-- Modelled from the spec: `BlockPos::from(Vector3<f64>)` (the `World` and
`BlockPos` types are not under src); the spec's data model says a block
coordinate is obtained from a continuous position by flooring each
coordinate. -/
def blockFrom (pos : Vec3) : ℤ × ℤ × ℤ :=
  (pos.1.floor, pos.2.1.floor, pos.2.2.floor)

/-- Modelled from the spec: `World::get_block` at a block coordinate is the
block-id lookup, 0 when the containing chunk is absent, which the `World`
abbreviation already represents as a total function. -/
def getBlock (w : World) (p : ℤ × ℤ × ℤ) : ℕ :=
  w p.1 p.2.1 p.2.2

/-- The `effective_movement` of candidate `i` (player.rs line 66): how fast
the ray approaches that candidate plane. -/
def effMove (dir : Vec3) (i : Fin 6) : ℚ :=
  dot3 dir (dirs i)

/-- The parametric distance `dist` to candidate plane `i` (player.rs lines
68-69): `|(|targets[i]| - |pos · dirs[i]|)| / effective_movement`. -/
def rayDist (dir pos : Vec3) (i : Fin 6) : ℚ :=
  |(|target pos i| - |dot3 pos (dirs i)|)| / effMove dir i

/-- One step of the candidate scan of `get_pointed_at` (player.rs lines
65-75) on the running state `(curr_min, face)`: consider candidate `i` only
when the ray moves towards it faster than the `1e-6` epsilon, and record it
when its distance strictly improves the current minimum. -/
def scanStep (dir pos : Vec3) (st : ℚ × ℕ) (i : Fin 6) : ℚ × ℕ :=
  if effMove dir i > 1/1000000 then
    if st.1 > rayDist dir pos i then (rayDist dir pos i, i.val) else st
  else
    st

/-- The whole candidate scan of one `get_pointed_at` iteration: fold the six
candidates in order over the initial state `(1e9, 0)`. -/
def scanFaces (dir pos : Vec3) : ℚ × ℕ :=
  (List.finRange 6).foldl (scanStep dir pos) (1000000000, 0)

/-- The main loop of `get_pointed_at` (player.rs lines 52-92), recursing on
explicit fuel.  Each executed iteration either returns or advances the
position by `curr_min + 1e-5` and shrinks the distance budget by the same
amount; the loop only continues while `curr_min ≤ max_dist`, so at most
`100000 * max_dist + 1` iterations ever run, and `get_pointed_at` hands this
loop strictly more fuel than that, making the fuel-exhausted branch dead
code. -/
def pointedGo (w : World) (dir : Vec3) (was_inside : Bool) :
    ℕ → Vec3 → ℚ → Option ((ℤ × ℤ × ℤ) × ℕ)
  | 0, _, _ => none
  | n + 1, pos, max_dist =>
    let s := scanFaces dir pos
    if was_inside then
      some (blockFrom pos, s.2 ^^^ 1)
    else if s.1 > max_dist then
      none
    else
      let cm := s.1 + 1/100000
      let pos' : Vec3 :=
        (pos.1 + cm * dir.1, pos.2.1 + cm * dir.2.1, pos.2.2 + cm * dir.2.2)
      if getBlock w (blockFrom pos') ≠ 0 then
        some (blockFrom pos', s.2)
      else
        pointedGo w dir was_inside n pos' (max_dist - cm)

/-- Embedding of `PhysicsPlayer::get_pointed_at` (player.rs lines 34-93),
taking the camera position `pos` and the already-normalized direction `dir`
(the source divides `dir` by its Euclidean norm first, an operation exact in
`ℚ` exactly when the input norm is rational, e.g. for axis-aligned
directions).  `was_inside` is computed once from the starting block, as in
the source. -/
def get_pointed_at (w : World) (dir : Vec3) (max_dist : ℚ) (pos : Vec3) :
    Option ((ℤ × ℤ × ℤ) × ℕ) :=
  pointedGo w dir (getBlock w (blockFrom pos) != 0)
    ((Rat.ceil (100000 * max_dist)).toNat + 1) pos max_dist

/-- A chunk coordinate (integer triple), the key of the chunk storage. -/
abbrev ChunkPos : Type := ℤ × ℤ × ℤ

/-- Modelled from the spec: the `World` chunk store (not under src) owns one
map from chunk coordinate to chunk data and one to light-chunk data; only
key presence matters to the pairing invariant, the payload types are
parameters. -/
structure WorldStore (α β : Type) where
  chunks : ChunkPos → Option α
  light : ChunkPos → Option β

/-- Modelled from the spec: `World::set_chunk`, an idempotent upsert keyed by
the chunk's coordinate. -/
def WorldStore.set_chunk (w : WorldStore α β) (p : ChunkPos) (c : α) :
    WorldStore α β :=
  { w with chunks := fun q => if q = p then some c else w.chunks q }

/-- Modelled from the spec: `World::set_light_chunk`, an idempotent upsert
keyed by the light chunk's coordinate. -/
def WorldStore.set_light_chunk (w : WorldStore α β) (p : ChunkPos) (lc : β) :
    WorldStore α β :=
  { w with light := fun q => if q = p then some lc else w.light q }

/-- Modelled from the spec: `World::has_chunk`. -/
def WorldStore.has_chunk (w : WorldStore α β) (p : ChunkPos) : Bool :=
  (w.chunks p).isSome

/-- Modelled from the spec: `World::has_light_chunk`. -/
def WorldStore.has_light_chunk (w : WorldStore α β) (p : ChunkPos) : Bool :=
  (w.light p).isSome

/-- The chunk-message branch of `SinglePlayer::update` (singleplayer.rs lines
162-166): a `ToClient::Chunk(chunk, light_chunk)` message inserts the chunk
and its light chunk together at the message's coordinate `chunk.pos`. -/
def applyChunkMessage (w : WorldStore α β) (p : ChunkPos) (c : α) (lc : β) :
    WorldStore α β :=
  (w.set_chunk p c).set_light_chunk p lc

/-- The eviction pass of `SinglePlayer::update` (singleplayer.rs lines
244-252): `chunks.retain` keeps each present chunk iff it is visible, and the
false branch also removes the light chunk at the same coordinate; light
entries whose coordinate has no chunk entry are untouched by the pass. -/
def evictionPass (w : WorldStore α β) (visible : ChunkPos → Bool) :
    WorldStore α β :=
  { chunks := fun q =>
      if (w.chunks q).isSome && !(visible q) then none else w.chunks q,
    light := fun q =>
      if (w.chunks q).isSome && !(visible q) then none else w.light q }

/-- One step of the client update loop as far as the chunk store is
concerned: either a chunk message arrives or an eviction pass runs. -/
inductive StoreOp (α β : Type) where
  | message (p : ChunkPos) (c : α) (lc : β)
  | evict (visible : ChunkPos → Bool)

/-- Apply one store operation. -/
def applyOp (w : WorldStore α β) : StoreOp α β → WorldStore α β
  | .message p c lc => applyChunkMessage w p c lc
  | .evict visible => evictionPass w visible

/-- Apply a whole interleaving of chunk messages and eviction passes in
order. -/
def applyOps (w : WorldStore α β) (ops : List (StoreOp α β)) : WorldStore α β :=
  ops.foldl applyOp w

/-- The test world of §8 of the specification: a single solid block filling
the unit cell at the origin, air everywhere else. -/
def worldOneBlock : World :=
  fun i j k => if i = 0 ∧ j = 0 ∧ k = 0 then 1 else 0

/-- The all-air world: every lookup resolves to block id 0, as happens when
no chunk at all is loaded. -/
def worldAir : World :=
  fun _ _ _ => 0

/- Helper lemmas -/

theorem rat_le_ceil (q : ℚ) : q ≤ (q.ceil : ℚ) := by
  unfold Rat.ceil
  split_ifs with h
  · exact le_of_eq (Rat.coe_int_num_of_den_eq_one h).symm
  · rw [show q.num / (q.den : ℤ) = ⌊q⌋ from (Rat.floor_def).symm]
    push_cast
    exact (Int.lt_floor_add_one q).le

theorem rat_ceil_pos {q : ℚ} (hq : 0 < q) : 1 ≤ q.ceil := by
  have h2 : (0 : ℚ) < (q.ceil : ℚ) := lt_of_lt_of_le hq (rat_le_ceil q)
  have h3 : (0 : ℤ) < q.ceil := by exact_mod_cast h2
  omega

theorem ite_false_true {P : Prop} [Decidable P] :
    ((if P then false else true) = true) ↔ ¬P := by
  split_ifs with h <;> simp [h]

theorem sweepX_preserves (w : World) (ddx : ℚ) :
    ∀ (n : ℕ) (b : AABB),
      (sweepX w ddx n b).y = b.y ∧ (sweepX w ddx n b).z = b.z ∧
      (sweepX w ddx n b).size_x = b.size_x ∧
      (sweepX w ddx n b).size_y = b.size_y ∧
      (sweepX w ddx n b).size_z = b.size_z
  | 0, b => ⟨rfl, rfl, rfl, rfl, rfl⟩
  | n + 1, b => by
    rw [sweepX]
    split
    · exact ⟨rfl, rfl, rfl, rfl, rfl⟩
    · exact sweepX_preserves w ddx n _

theorem sweepY_preserves (w : World) (ddy : ℚ) :
    ∀ (n : ℕ) (b : AABB),
      (sweepY w ddy n b).x = b.x ∧ (sweepY w ddy n b).z = b.z ∧
      (sweepY w ddy n b).size_x = b.size_x ∧
      (sweepY w ddy n b).size_y = b.size_y ∧
      (sweepY w ddy n b).size_z = b.size_z
  | 0, b => ⟨rfl, rfl, rfl, rfl, rfl⟩
  | n + 1, b => by
    rw [sweepY]
    split
    · exact ⟨rfl, rfl, rfl, rfl, rfl⟩
    · exact sweepY_preserves w ddy n _

theorem sweepZ_preserves (w : World) (ddz : ℚ) :
    ∀ (n : ℕ) (b : AABB),
      (sweepZ w ddz n b).x = b.x ∧ (sweepZ w ddz n b).y = b.y ∧
      (sweepZ w ddz n b).size_x = b.size_x ∧
      (sweepZ w ddz n b).size_y = b.size_y ∧
      (sweepZ w ddz n b).size_z = b.size_z
  | 0, b => ⟨rfl, rfl, rfl, rfl, rfl⟩
  | n + 1, b => by
    rw [sweepZ]
    split
    · exact ⟨rfl, rfl, rfl, rfl, rfl⟩
    · exact sweepZ_preserves w ddz n _

theorem intersect_true_iff (a b : AABB) :
    a.intersect b = true ↔
      (b.x < a.x + a.size_x ∧ a.x < b.x + b.size_x ∧
       b.y < a.y + a.size_y ∧ a.y < b.y + b.size_y ∧
       b.z < a.z + a.size_z ∧ a.z < b.z + b.size_z) := by
  rw [AABB.intersect, ite_false_true]
  push_neg
  tauto

/-- C1: for every world and every AABB that intersects the world at the
start of `move_check_collision`, the call skips collision resolution
entirely: it returns exactly the requested `(dx, dy, dz)` and the box's
final position is its starting position plus that delta on every axis. -/
theorem embedded_box_moves_unconditionally (b : AABB) (w : World) (dx dy dz : ℚ)
    (h : b.intersect_world w = true) :
    b.move_check_collision w dx dy dz =
      ({ b with x := b.x + dx, y := b.y + dy, z := b.z + dz }, (dx, dy, dz)) := by
  rw [AABB.move_check_collision, if_pos h]

/-- Witness for C1 at a concrete embedded box. -/
theorem embedded_box_moves_unconditionally_witness :
    AABB.move_check_collision ⟨1/4, 1/4, 1/4, 1/2, 1/2, 1/2⟩ worldOneBlock 3 (-2) (1/2) =
      (⟨1/4 + 3, 1/4 + (-2), 1/4 + 1/2, 1/2, 1/2, 1/2⟩, (3, -2, 1/2)) :=
  embedded_box_moves_unconditionally ⟨1/4, 1/4, 1/4, 1/2, 1/2, 1/2⟩ worldOneBlock
    3 (-2) (1/2) (by decide)

theorem move_eq_sweeps (b : AABB) (w : World) (dx dy dz : ℚ)
    (h : b.intersect_world w = false) :
    b.move_check_collision w dx dy dz =
      (moveB3 b w dx dy dz,
       ((moveB1 b w dx).x - b.x,
        (moveB2 b w dx dy).y - (moveB1 b w dx).y,
        (moveB3 b w dx dy dz).z - (moveB2 b w dx dy).z)) := by
  rw [AABB.move_check_collision, if_neg (by simp [h])]
  rfl

theorem intersect_world_air (b : AABB) (w : World) (hw : ∀ i j k, w i j k = 0) :
    b.intersect_world w = false := by
  simp [AABB.intersect_world, hw]

theorem sweepX_air (w : World) (hw : ∀ i j k, w i j k = 0) (dd : ℚ) :
    ∀ (n : ℕ) (b : AABB), sweepX w dd n b = { b with x := b.x + (n : ℚ) * dd }
  | 0, b => by rw [sweepX]; simp
  | n + 1, b => by
    rw [sweepX, if_neg (by simp [intersect_world_air _ _ hw]),
      sweepX_air w hw dd n]
    congr 1
    push_cast
    ring

theorem sweepY_air (w : World) (hw : ∀ i j k, w i j k = 0) (dd : ℚ) :
    ∀ (n : ℕ) (b : AABB), sweepY w dd n b = { b with y := b.y + (n : ℚ) * dd }
  | 0, b => by rw [sweepY]; simp
  | n + 1, b => by
    rw [sweepY, if_neg (by simp [intersect_world_air _ _ hw]),
      sweepY_air w hw dd n]
    congr 1
    push_cast
    ring

theorem sweepZ_air (w : World) (hw : ∀ i j k, w i j k = 0) (dd : ℚ) :
    ∀ (n : ℕ) (b : AABB), sweepZ w dd n b = { b with z := b.z + (n : ℚ) * dd }
  | 0, b => by rw [sweepZ]; simp
  | n + 1, b => by
    rw [sweepZ, if_neg (by simp [intersect_world_air _ _ hw]),
      sweepZ_air w hw dd n]
    congr 1
    push_cast
    ring

theorem step_count_mul_substep (d s : ℚ) (hs : 0 < s) :
    (((Rat.ceil (|d| / s)).toNat : ℚ)) * (d / ((Rat.ceil (|d| / s)).toNat : ℚ)) = d := by
  rcases eq_or_ne d 0 with rfl | hd
  · simp
  · have h1 : 0 < |d| / s := div_pos (abs_pos.mpr hd) hs
    have h2 : 1 ≤ Rat.ceil (|d| / s) := rat_ceil_pos h1
    have h3 : ((Rat.ceil (|d| / s)).toNat : ℚ) ≠ 0 :=
      Nat.cast_ne_zero.mpr (by omega)
    field_simp

/-- C5: `intersect` is true exactly when the two boxes are separated along
no axis, under the half-open convention (touching boxes do not intersect),
and the result does not depend on which box is the receiver. -/
theorem intersect_separation_characterization (a b : AABB) :
    (a.intersect b = true ↔
      (b.x < a.x + a.size_x ∧ a.x < b.x + b.size_x ∧
       b.y < a.y + a.size_y ∧ a.y < b.y + b.size_y ∧
       b.z < a.z + a.size_z ∧ a.z < b.z + b.size_z)) ∧
    a.intersect b = b.intersect a ∧
    (a.x + a.size_x = b.x → a.intersect b = false) := by
  refine ⟨intersect_true_iff a b, ?_, ?_⟩
  · rw [Bool.eq_iff_iff, intersect_true_iff, intersect_true_iff]
    tauto
  · intro h
    rw [AABB.intersect, if_pos]
    exact Or.inl h.le

/-- Witness for C5: two boxes touching exactly at the plane `x = 1` do not
intersect. -/
theorem intersect_separation_characterization_witness :
    AABB.intersect ⟨0, 0, 0, 1, 1, 1⟩ ⟨1, 0, 0, 1, 1, 1⟩ = false :=
  (intersect_separation_characterization ⟨0, 0, 0, 1, 1, 1⟩ ⟨1, 0, 0, 1, 1, 1⟩).2.2
    (by norm_num)

/-- C2: for every world, every non-embedded starting box and every requested
delta, the vector returned by `move_check_collision` is on each axis the
box's final coordinate minus its starting coordinate on that axis (the true
net displacement; the start of each axis's resolution has the same
coordinate on that axis as the overall start, because the earlier axes do
not touch it). -/
theorem move_returns_net_displacement (b : AABB) (w : World) (dx dy dz : ℚ)
    (h : b.intersect_world w = false) :
    (b.move_check_collision w dx dy dz).2 =
      ((b.move_check_collision w dx dy dz).1.x - b.x,
       (b.move_check_collision w dx dy dz).1.y - b.y,
       (b.move_check_collision w dx dy dz).1.z - b.z) := by
  rw [move_eq_sweeps _ _ _ _ _ h]
  have e1 : (moveB1 b w dx).y = b.y := (sweepX_preserves w _ _ b).1
  have e2 : (moveB1 b w dx).z = b.z := (sweepX_preserves w _ _ b).2.1
  have e3 : (moveB2 b w dx dy).x = (moveB1 b w dx).x :=
    (sweepY_preserves w _ _ (moveB1 b w dx)).1
  have e4 : (moveB2 b w dx dy).z = (moveB1 b w dx).z :=
    (sweepY_preserves w _ _ (moveB1 b w dx)).2.1
  have e5 : (moveB3 b w dx dy dz).x = (moveB2 b w dx dy).x :=
    (sweepZ_preserves w _ _ (moveB2 b w dx dy)).1
  have e6 : (moveB3 b w dx dy dz).y = (moveB2 b w dx dy).y :=
    (sweepZ_preserves w _ _ (moveB2 b w dx dy)).2.1
  simp only [Prod.mk.injEq]
  exact ⟨by rw [e5, e3], by rw [e6, e1], by rw [e4, e2]⟩

/-- Witness for C2 at a concrete non-embedded box. -/
theorem move_returns_net_displacement_witness :
    (AABB.move_check_collision ⟨5, 5, 5, 1, 1, 1⟩ worldOneBlock 3 0 (-2)).2 =
      ((AABB.move_check_collision ⟨5, 5, 5, 1, 1, 1⟩ worldOneBlock 3 0 (-2)).1.x - 5,
       (AABB.move_check_collision ⟨5, 5, 5, 1, 1, 1⟩ worldOneBlock 3 0 (-2)).1.y - 5,
       (AABB.move_check_collision ⟨5, 5, 5, 1, 1, 1⟩ worldOneBlock 3 0 (-2)).1.z - 5) :=
  move_returns_net_displacement ⟨5, 5, 5, 1, 1, 1⟩ worldOneBlock 3 0 (-2) (by decide)

/-- C9: in a world whose block lookup is 0 everywhere, `intersects_world` is
false for every box, and `move_check_collision` (on a box with positive
extents, per the AABB invariant) returns exactly the requested delta with
the final position equal to the start plus the delta: absent chunks resolve
to air rather than an error. -/
theorem move_in_air_returns_delta (b : AABB) (w : World) (dx dy dz : ℚ)
    (hw : ∀ i j k, w i j k = 0)
    (hx : 0 < b.size_x) (hy : 0 < b.size_y) (hz : 0 < b.size_z) :
    b.intersect_world w = false ∧
    b.move_check_collision w dx dy dz =
      ({ b with x := b.x + dx, y := b.y + dy, z := b.z + dz }, (dx, dy, dz)) := by
  have h0 := intersect_world_air b w hw
  refine ⟨h0, ?_⟩
  have hb1 : moveB1 b w dx = { b with x := b.x + dx } := by
    unfold moveB1
    rw [sweepX_air w hw, step_count_mul_substep dx b.size_x hx]
  have hb2 : moveB2 b w dx dy = { b with x := b.x + dx, y := b.y + dy } := by
    unfold moveB2
    rw [hb1, sweepY_air w hw, step_count_mul_substep dy b.size_y hy]
  have hb3 : moveB3 b w dx dy dz =
      { b with x := b.x + dx, y := b.y + dy, z := b.z + dz } := by
    unfold moveB3
    rw [hb2, sweepZ_air w hw, step_count_mul_substep dz b.size_z hz]
  rw [move_eq_sweeps _ _ _ _ _ h0, hb1, hb2, hb3]
  simp only [Prod.mk.injEq, true_and]
  refine ⟨?_, ?_, ?_⟩ <;> ring

/-- Witness for C9 in the all-air world. -/
theorem move_in_air_returns_delta_witness :
    AABB.intersect_world ⟨5, 5, 5, 1, 1, 1⟩ worldAir = false ∧
    AABB.move_check_collision ⟨5, 5, 5, 1, 1, 1⟩ worldAir 3 0 (-2) =
      ({ x := 5 + 3, y := 5 + 0, z := 5 + (-2), size_x := 1, size_y := 1,
         size_z := 1 }, (3, 0, -2)) :=
  move_in_air_returns_delta ⟨5, 5, 5, 1, 1, 1⟩ worldAir 3 0 (-2)
    (fun _ _ _ => rfl) (by norm_num) (by norm_num) (by norm_num)

/-- C10: for a non-embedded starting box, an axis whose requested delta is
exactly zero is left unchanged by `move_check_collision` and reports zero
displacement: its sub-step count `ceil(0 / size)` is 0, so the per-axis loop
body (and the division `0 / 0` behind its sub-step length) is never
executed. -/
theorem zero_axis_delta_is_noop (b : AABB) (w : World) (dx dy dz : ℚ)
    (h : b.intersect_world w = false) :
    (dx = 0 → (b.move_check_collision w dx dy dz).1.x = b.x ∧
      (b.move_check_collision w dx dy dz).2.1 = 0) ∧
    (dy = 0 → (b.move_check_collision w dx dy dz).1.y = b.y ∧
      (b.move_check_collision w dx dy dz).2.2.1 = 0) ∧
    (dz = 0 → (b.move_check_collision w dx dy dz).1.z = b.z ∧
      (b.move_check_collision w dx dy dz).2.2.2 = 0) := by
  rw [move_eq_sweeps _ _ _ _ _ h]
  have e1 : (moveB1 b w dx).y = b.y := (sweepX_preserves w _ _ b).1
  have e2 : (moveB1 b w dx).z = b.z := (sweepX_preserves w _ _ b).2.1
  have e4 : (moveB2 b w dx dy).z = (moveB1 b w dx).z :=
    (sweepY_preserves w _ _ (moveB1 b w dx)).2.1
  have e5 : (moveB3 b w dx dy dz).x = (moveB2 b w dx dy).x :=
    (sweepZ_preserves w _ _ (moveB2 b w dx dy)).1
  have e6 : (moveB3 b w dx dy dz).y = (moveB2 b w dx dy).y :=
    (sweepZ_preserves w _ _ (moveB2 b w dx dy)).2.1
  have e3 : (moveB2 b w dx dy).x = (moveB1 b w dx).x :=
    (sweepY_preserves w _ _ (moveB1 b w dx)).1
  refine ⟨?_, ?_, ?_⟩
  · intro h0
    have hb : moveB1 b w dx = b := by
      unfold moveB1
      rw [h0]
      norm_num [show ((0 : ℚ).ceil) = 0 from rfl, sweepX]
    refine ⟨?_, ?_⟩
    · rw [e5, e3, hb]
    · rw [hb]; ring
  · intro h0
    have hb : moveB2 b w dx dy = moveB1 b w dx := by
      unfold moveB2
      rw [h0]
      norm_num [show ((0 : ℚ).ceil) = 0 from rfl, sweepY]
    refine ⟨?_, ?_⟩
    · rw [e6, hb, e1]
    · rw [hb]; ring
  · intro h0
    have hb : moveB3 b w dx dy dz = moveB2 b w dx dy := by
      unfold moveB3
      rw [h0]
      norm_num [show ((0 : ℚ).ceil) = 0 from rfl, sweepZ]
    refine ⟨?_, ?_⟩
    · rw [hb, e4, e2]
    · rw [hb]; ring

/-- Witness for C10: moving with a zero y-delta (other axes non-zero, with a
real obstacle in the world) leaves the y coordinate unchanged and reports
zero y displacement. -/
theorem zero_axis_delta_is_noop_witness :
    (AABB.move_check_collision ⟨5, 5, 5, 1, 1, 1⟩ worldOneBlock 3 0 (-2)).1.y = 5 ∧
    (AABB.move_check_collision ⟨5, 5, 5, 1, 1, 1⟩ worldOneBlock 3 0 (-2)).2.2.1 = 0 :=
  (zero_axis_delta_is_noop ⟨5, 5, 5, 1, 1, 1⟩ worldOneBlock 3 0 (-2) (by decide)).2.1 rfl

theorem axGet_x (b : AABB) : axGet 0 b = b.x := rfl

theorem axGet_y (b : AABB) : axGet 1 b = b.y := rfl

theorem axGet_z (b : AABB) : axGet 2 b = b.z := rfl

theorem axSize_x (b : AABB) : axSize 0 b = b.size_x := rfl

theorem axSize_y (b : AABB) : axSize 1 b = b.size_y := rfl

theorem axSize_z (b : AABB) : axSize 2 b = b.size_z := rfl

theorem axSet_x (v : ℚ) (b : AABB) : axSet 0 v b = { b with x := v } := rfl

theorem axSet_y (v : ℚ) (b : AABB) : axSet 1 v b = { b with y := v } := rfl

theorem axSet_z (v : ℚ) (b : AABB) : axSet 2 v b = { b with z := v } := rfl

theorem sweepAxis_x_eq_sweepX (w : World) (dd : ℚ) :
    ∀ (n : ℕ) (b : AABB), sweepAxis w 0 dd n b = sweepX w dd n b
  | 0, b => rfl
  | n + 1, b => by
    rw [sweepAxis, sweepX]
    simp only [axSet_x, axGet_x, probeX]
    by_cases hc : ({ b with x := b.x + dd } : AABB).intersect_world w = true
    · simp only [hc, if_true]
    · simp only [hc, if_false]
      exact sweepAxis_x_eq_sweepX w dd n _

theorem sweepAxis_y_eq_sweepY (w : World) (dd : ℚ) :
    ∀ (n : ℕ) (b : AABB), sweepAxis w 1 dd n b = sweepY w dd n b
  | 0, b => rfl
  | n + 1, b => by
    rw [sweepAxis, sweepY]
    simp only [axSet_y, axGet_y, probeY]
    by_cases hc : ({ b with y := b.y + dd } : AABB).intersect_world w = true
    · simp only [hc, if_true]
    · simp only [hc, if_false]
      exact sweepAxis_y_eq_sweepY w dd n _

theorem sweepAxis_z_eq_sweepZ (w : World) (dd : ℚ) :
    ∀ (n : ℕ) (b : AABB), sweepAxis w 2 dd n b = sweepZ w dd n b
  | 0, b => rfl
  | n + 1, b => by
    rw [sweepAxis, sweepZ]
    simp only [axSet_z, axGet_z, probeZ]
    by_cases hc : ({ b with z := b.z + dd } : AABB).intersect_world w = true
    · simp only [hc, if_true]
    · simp only [hc, if_false]
      exact sweepAxis_z_eq_sweepZ w dd n _

/-- C3: on a non-embedded box, `move_check_collision` resolves the axes
sequentially in the order x, then y, then z, each axis starting from the box
as already updated by the previous axes, and each axis splitting its motion
into exactly `ceil(|d| / size-on-that-axis)` equal sub-steps, as the
spec-side formulation `resolveAxisSpec` prescribes. -/
theorem move_resolves_axes_in_order (b : AABB) (w : World) (dx dy dz : ℚ)
    (h : b.intersect_world w = false) :
    b.move_check_collision w dx dy dz =
      ((resolveAxisSpec w 2 dz
          (resolveAxisSpec w 1 dy (resolveAxisSpec w 0 dx b).1).1).1,
       ((resolveAxisSpec w 0 dx b).2,
        (resolveAxisSpec w 1 dy (resolveAxisSpec w 0 dx b).1).2,
        (resolveAxisSpec w 2 dz
          (resolveAxisSpec w 1 dy (resolveAxisSpec w 0 dx b).1).1).2)) := by
  have hA : resolveAxisSpec w 0 dx b =
      (moveB1 b w dx, (moveB1 b w dx).x - b.x) := by
    simp only [resolveAxisSpec, axSteps, axSize_x, axGet_x,
      sweepAxis_x_eq_sweepX, moveB1]
  have hsy : (moveB1 b w dx).size_y = b.size_y :=
    (sweepX_preserves w _ _ b).2.2.2.1
  have hB : resolveAxisSpec w 1 dy (moveB1 b w dx) =
      (moveB2 b w dx dy, (moveB2 b w dx dy).y - (moveB1 b w dx).y) := by
    simp only [resolveAxisSpec, axSteps, axSize_y, axGet_y,
      sweepAxis_y_eq_sweepY, moveB2, hsy]
  have hsz : (moveB2 b w dx dy).size_z = b.size_z := by
    have h1 : (moveB2 b w dx dy).size_z = (moveB1 b w dx).size_z :=
      (sweepY_preserves w _ _ (moveB1 b w dx)).2.2.2.2
    have h2 : (moveB1 b w dx).size_z = b.size_z :=
      (sweepX_preserves w _ _ b).2.2.2.2
    rw [h1, h2]
  have hC : resolveAxisSpec w 2 dz (moveB2 b w dx dy) =
      (moveB3 b w dx dy dz, (moveB3 b w dx dy dz).z - (moveB2 b w dx dy).z) := by
    simp only [resolveAxisSpec, axSteps, axSize_z, axGet_z,
      sweepAxis_z_eq_sweepZ, moveB3, hsz]
  rw [move_eq_sweeps _ _ _ _ _ h]
  simp only [hA, hB, hC]

/-- Witness for C3 at a concrete non-embedded box. -/
theorem move_resolves_axes_in_order_witness :
    AABB.move_check_collision ⟨5, 5, 5, 1, 1, 1⟩ worldOneBlock 3 0 (-2) =
      ((resolveAxisSpec worldOneBlock 2 (-2)
          (resolveAxisSpec worldOneBlock 1 0
            (resolveAxisSpec worldOneBlock 0 3 ⟨5, 5, 5, 1, 1, 1⟩).1).1).1,
       ((resolveAxisSpec worldOneBlock 0 3 ⟨5, 5, 5, 1, 1, 1⟩).2,
        (resolveAxisSpec worldOneBlock 1 0
          (resolveAxisSpec worldOneBlock 0 3 ⟨5, 5, 5, 1, 1, 1⟩).1).2,
        (resolveAxisSpec worldOneBlock 2 (-2)
          (resolveAxisSpec worldOneBlock 1 0
            (resolveAxisSpec worldOneBlock 0 3 ⟨5, 5, 5, 1, 1, 1⟩).1).1).2)) :=
  move_resolves_axes_in_order ⟨5, 5, 5, 1, 1, 1⟩ worldOneBlock 3 0 (-2) (by decide)

theorem binSearchGo_exit (tst : ℚ → Bool) {p : ℚ × ℚ}
    (h : ¬(p.2 - p.1 > 1/100)) : ∀ n, binSearchGo tst n p = p
  | 0 => rfl
  | n + 1 => by rw [binSearchGo, if_neg h]

theorem binSearchGo_succ (tst : ℚ → Bool) (n : ℕ) (p : ℚ × ℚ)
    (hgap : p.2 - p.1 > 1/100) :
    binSearchGo tst (n + 1) p =
      if tst ((p.1 + p.2) / 2) then binSearchGo tst n (p.1, (p.1 + p.2) / 2)
      else binSearchGo tst n ((p.1 + p.2) / 2, p.2) := by
  rw [binSearchGo, if_pos hgap]

theorem binSearchGo_tolerance_aux (tst : ℚ → Bool) :
    ∀ (n : ℕ) (p : ℚ × ℚ), p.2 - p.1 ≤ (1/100) * 2 ^ n →
      ((binSearchGo tst n p).2 - (binSearchGo tst n p).1 ≤ 1/100) ∧
      (∀ m, n ≤ m → binSearchGo tst m p = binSearchGo tst n p)
  | 0, p, h => by
    have hle : ¬(p.2 - p.1 > 1/100) := by push_neg; simpa using h
    refine ⟨by simpa [binSearchGo] using h, fun m _ => ?_⟩
    rw [binSearchGo_exit tst hle m]
    rfl
  | n + 1, p, h => by
    by_cases hgap : p.2 - p.1 > 1/100
    · by_cases htst : tst ((p.1 + p.2) / 2) = true
      · have hg : ((p.1, (p.1 + p.2) / 2) : ℚ × ℚ).2 -
            ((p.1, (p.1 + p.2) / 2) : ℚ × ℚ).1 ≤ (1/100) * 2 ^ n := by
          simp only []
          rw [pow_succ] at h
          linarith
        have IH := binSearchGo_tolerance_aux tst n (p.1, (p.1 + p.2) / 2) hg
        constructor
        · rw [binSearchGo_succ tst n p hgap, if_pos htst]
          exact IH.1
        · intro m hm
          obtain ⟨m', rfl⟩ : ∃ m', m = m' + 1 := ⟨m - 1, by omega⟩
          rw [binSearchGo_succ tst m' p hgap, if_pos htst,
            binSearchGo_succ tst n p hgap, if_pos htst]
          exact IH.2 m' (by omega)
      · have hg : (((p.1 + p.2) / 2, p.2) : ℚ × ℚ).2 -
            (((p.1 + p.2) / 2, p.2) : ℚ × ℚ).1 ≤ (1/100) * 2 ^ n := by
          simp only []
          rw [pow_succ] at h
          linarith
        have IH := binSearchGo_tolerance_aux tst n ((p.1 + p.2) / 2, p.2) hg
        constructor
        · rw [binSearchGo_succ tst n p hgap, if_neg htst]
          exact IH.1
        · intro m hm
          obtain ⟨m', rfl⟩ : ∃ m', m = m' + 1 := ⟨m - 1, by omega⟩
          rw [binSearchGo_succ tst m' p hgap, if_neg htst,
            binSearchGo_succ tst n p hgap, if_neg htst]
          exact IH.2 m' (by omega)
    · have hexit := binSearchGo_exit tst hgap
      push_neg at hgap
      refine ⟨?_, fun m _ => ?_⟩
      · rw [hexit (n + 1)]
        exact hgap
      · rw [hexit m, hexit (n + 1)]

theorem hundred_gap_le_pow (g : ℚ) : g ≤ (1/100) * 2 ^ binSearchFuel g := by
  rcases le_or_lt g 0 with hg | hg
  · have hpos : (0 : ℚ) < (1/100) * 2 ^ binSearchFuel g := by positivity
    linarith
  · have h1 : (100 * g : ℚ) ≤ ((Rat.ceil (100 * g) : ℤ) : ℚ) := rat_le_ceil _
    have h2 : (0 : ℤ) ≤ Rat.ceil (100 * g) := by
      have h0 : (0 : ℚ) ≤ ((Rat.ceil (100 * g) : ℤ) : ℚ) := le_trans (by linarith) h1
      exact_mod_cast h0
    have h3 : ((binSearchFuel g : ℕ) : ℚ) = ((Rat.ceil (100 * g) : ℤ) : ℚ) := by
      rw [binSearchFuel]
      exact_mod_cast Int.toNat_of_nonneg h2
    have h4 : ((binSearchFuel g : ℕ) : ℚ) < 2 ^ binSearchFuel g := by
      exact_mod_cast Nat.lt_two_pow (binSearchFuel g)
    linarith

/-- C4: each per-axis binary search (an instance of `binSearch tst 0 |dd|`
with `tst` one of `probeX`/`probeY`/`probeZ`) terminates: starting from the
interval `(0, |dd|)`, the gap is halved at every executed iteration, so the
loop guarded by `max_d - min_d > 0.01` reaches the tolerance bound within
`binSearchFuel` iterations and giving it any larger iteration budget `m`
changes nothing — it never loops unboundedly. -/
theorem binary_search_reaches_tolerance (tst : ℚ → Bool) (dd : ℚ) (m : ℕ)
    (hm : binSearchFuel (|dd| - 0) ≤ m) :
    ((binSearchGo tst m (0, |dd|)).2 - (binSearchGo tst m (0, |dd|)).1 ≤ 1/100) ∧
    binSearchGo tst m (0, |dd|) =
      binSearchGo tst (binSearchFuel (|dd| - 0)) (0, |dd|) ∧
    binSearch tst 0 |dd| = (binSearchGo tst m (0, |dd|)).1 := by
  have hstart : ((0 : ℚ), |dd|).2 - ((0 : ℚ), |dd|).1 ≤
      (1/100) * 2 ^ binSearchFuel (|dd| - 0) := by
    simpa using hundred_gap_le_pow (|dd| - 0)
  obtain ⟨ha, hb⟩ :=
    binSearchGo_tolerance_aux tst (binSearchFuel (|dd| - 0)) (0, |dd|) hstart
  refine ⟨?_, hb m hm, ?_⟩
  · rw [hb m hm]
    exact ha
  · rw [binSearch, hb m hm]

/-- Witness for C4 with the x-axis probe on a concrete box, world and
sub-step, at an iteration budget strictly above the fuel bound. -/
theorem binary_search_reaches_tolerance_witness :
    ((binSearchGo (fun med => probeX worldOneBlock ⟨5, 0, 0, 1, 1, 1⟩ (-1) med)
        300 (0, |(-1 : ℚ)|)).2 -
      (binSearchGo (fun med => probeX worldOneBlock ⟨5, 0, 0, 1, 1, 1⟩ (-1) med)
        300 (0, |(-1 : ℚ)|)).1 ≤ 1/100) ∧
    binSearchGo (fun med => probeX worldOneBlock ⟨5, 0, 0, 1, 1, 1⟩ (-1) med)
        300 (0, |(-1 : ℚ)|) =
      binSearchGo (fun med => probeX worldOneBlock ⟨5, 0, 0, 1, 1, 1⟩ (-1) med)
        (binSearchFuel (|(-1 : ℚ)| - 0)) (0, |(-1 : ℚ)|) ∧
    binSearch (fun med => probeX worldOneBlock ⟨5, 0, 0, 1, 1, 1⟩ (-1) med)
        0 |(-1 : ℚ)| =
      (binSearchGo (fun med => probeX worldOneBlock ⟨5, 0, 0, 1, 1, 1⟩ (-1) med)
        300 (0, |(-1 : ℚ)|)).1 :=
  binary_search_reaches_tolerance
    (fun med => probeX worldOneBlock ⟨5, 0, 0, 1, 1, 1⟩ (-1) med) (-1) 300
    (by decide)

/-- C6: after any interleaving of chunk messages (which insert a chunk and
its light chunk together) and eviction passes (the `retain` that also
removes the paired light chunk in its false branch), the pairing invariant
`has_chunk c = has_light_chunk c` holds at every coordinate, provided it
held at the start; in particular one whole eviction pass preserves it. -/
theorem chunk_light_pairing {α β : Type} (w : WorldStore α β)
    (ops : List (StoreOp α β)) (c : ChunkPos)
    (h : ∀ q, w.has_chunk q = w.has_light_chunk q) :
    (applyOps w ops).has_chunk c = (applyOps w ops).has_light_chunk c := by
  induction ops generalizing w with
  | nil => exact h c
  | cons op rest ih =>
    show (applyOps (applyOp w op) rest).has_chunk c =
      (applyOps (applyOp w op) rest).has_light_chunk c
    apply ih
    intro q
    cases op with
    | message p cd ld =>
      have hq0 := h q
      simp only [WorldStore.has_chunk, WorldStore.has_light_chunk] at hq0
      by_cases hq : q = p <;>
        simp [applyOp, applyChunkMessage, WorldStore.set_chunk,
          WorldStore.set_light_chunk, WorldStore.has_chunk,
          WorldStore.has_light_chunk, hq, hq0]
    | evict visible =>
      simp only [applyOp, evictionPass, WorldStore.has_chunk,
        WorldStore.has_light_chunk]
      split_ifs with hc
      · rfl
      · exact h q

/-- Witness for C6: starting from the empty store, one chunk message
followed by an eviction pass that evicts everything leaves the two maps
paired at the inserted coordinate. -/
theorem chunk_light_pairing_witness :
    (applyOps (⟨fun _ => none, fun _ => none⟩ : WorldStore ℕ ℕ)
        [StoreOp.message (0, 0, 0) 1 2, StoreOp.evict fun _ => false]).has_chunk
        (0, 0, 0) =
      (applyOps (⟨fun _ => none, fun _ => none⟩ : WorldStore ℕ ℕ)
        [StoreOp.message (0, 0, 0) 1 2, StoreOp.evict fun _ => false]).has_light_chunk
        (0, 0, 0) :=
  chunk_light_pairing ⟨fun _ => none, fun _ => none⟩
    [StoreOp.message (0, 0, 0) 1 2, StoreOp.evict fun _ => false] (0, 0, 0)
    (fun _ => rfl)

/-- C7 counterexample: in the world with the single solid block at the
origin, the raycast from camera position `(0.5, 0.5, 5)` along `(0, 0, -1)`
with budget 10 does not return face index 5 (the `+z` entry of the direction
table), contradicting the claim. -/
theorem raycast_scenario_face_counterexample :
    get_pointed_at worldOneBlock (0, 0, -1) 10 (1/2, 1/2, 5) ≠
      some ((0, 0, 0), 5) := by
  decide

/-- C7 amended: that raycast returns `some` with block coordinate
`(0, 0, 0)` and face index 4 — the `-z` entry of the direction table, i.e.
the candidate direction of ray travel whose plane was crossed, not the
outward normal of the struck `+z` face. -/
theorem raycast_scenario_returns_face_four :
    get_pointed_at worldOneBlock (0, 0, -1) 10 (1/2, 1/2, 5) =
      some ((0, 0, 0), 4) := by
  decide

theorem scanStep_keeps_gt (dir pos : Vec3) (i j : Fin 6) (st : ℚ × ℕ)
    (hst : rayDist dir pos i < st.1)
    (hj : effMove dir j > 1/1000000 → rayDist dir pos i < rayDist dir pos j) :
    rayDist dir pos i < (scanStep dir pos st j).1 := by
  rw [scanStep]
  split_ifs with h1 h2
  · simpa using hj h1
  · exact hst
  · exact hst

theorem scanStep_at_min (dir pos : Vec3) (i : Fin 6) (st : ℚ × ℕ)
    (hst : rayDist dir pos i < st.1) (hel : effMove dir i > 1/1000000) :
    scanStep dir pos st i = (rayDist dir pos i, i.val) := by
  rw [scanStep, if_pos hel, if_pos hst]

theorem scanStep_stays (dir pos : Vec3) (i j : Fin 6)
    (hj : effMove dir j > 1/1000000 → rayDist dir pos i ≤ rayDist dir pos j) :
    scanStep dir pos (rayDist dir pos i, i.val) j = (rayDist dir pos i, i.val) := by
  rw [scanStep]
  split_ifs with h1 h2
  · exact absurd h2 (not_lt.mpr (hj h1))
  · rfl
  · rfl

theorem foldl_scan_keeps_gt (dir pos : Vec3) (i : Fin 6) :
    ∀ (l : List (Fin 6)) (st : ℚ × ℕ), rayDist dir pos i < st.1 →
      (∀ j ∈ l, effMove dir j > 1/1000000 → rayDist dir pos i < rayDist dir pos j) →
      rayDist dir pos i < (l.foldl (scanStep dir pos) st).1
  | [], _, hst, _ => hst
  | j :: l, st, hst, hl => by
    rw [List.foldl_cons]
    exact foldl_scan_keeps_gt dir pos i l _
      (scanStep_keeps_gt dir pos i j st hst (hl j (by simp)))
      (fun k hk hek => hl k (by simp [hk]) hek)

theorem foldl_scan_stays (dir pos : Vec3) (i : Fin 6) :
    ∀ (l : List (Fin 6)),
      (∀ j ∈ l, effMove dir j > 1/1000000 → rayDist dir pos i ≤ rayDist dir pos j) →
      l.foldl (scanStep dir pos) (rayDist dir pos i, i.val) =
        (rayDist dir pos i, i.val)
  | [], _ => rfl
  | j :: l, hl => by
    rw [List.foldl_cons, scanStep_stays dir pos i j (hl j (by simp))]
    exact foldl_scan_stays dir pos i l (fun k hk hek => hl k (by simp [hk]) hek)

theorem scanFaces_eq_of_min (dir pos : Vec3) (i : Fin 6) (l1 l2 : List (Fin 6))
    (hsplit : List.finRange 6 = l1 ++ i :: l2)
    (hl1 : ∀ j ∈ l1, effMove dir j > 1/1000000 →
      rayDist dir pos i < rayDist dir pos j)
    (hl2 : ∀ j ∈ l2, effMove dir j > 1/1000000 →
      rayDist dir pos i ≤ rayDist dir pos j)
    (hlt : rayDist dir pos i < 1000000000)
    (hel : effMove dir i > 1/1000000) :
    scanFaces dir pos = (rayDist dir pos i, i.val) := by
  rw [scanFaces, hsplit, List.foldl_append, List.foldl_cons]
  have hA : rayDist dir pos i < (l1.foldl (scanStep dir pos) (1000000000, 0)).1 :=
    foldl_scan_keeps_gt dir pos i l1 (1000000000, 0) hlt hl1
  rw [scanStep_at_min dir pos i _ hA hel]
  exact foldl_scan_stays dir pos i l2 hl2

/-- C8: if the raycast origin lies inside a solid block, `get_pointed_at`
returns `some` on the first loop iteration, with the block containing the
origin and face index `i ^^^ 1`, where `i` is the index of the candidate
plane with the minimum parametric distance among the axes whose direction
component exceeds the `1e-6` epsilon (earlier indices win ties, per the
strict-improvement update of the scan); the XOR with 1 maps a face to its
opposite because the 6-entry direction table pairs opposite directions
adjacently. -/
theorem raycast_inside_block (w : World) (dir : Vec3) (max_dist : ℚ)
    (pos : Vec3) (i : Fin 6)
    (hin : getBlock w (blockFrom pos) ≠ 0)
    (hel : effMove dir i > 1/1000000)
    (hlt : rayDist dir pos i < 1000000000)
    (hfirst : ∀ j : Fin 6, j < i → effMove dir j > 1/1000000 →
      rayDist dir pos i < rayDist dir pos j)
    (hmin : ∀ j : Fin 6, effMove dir j > 1/1000000 →
      rayDist dir pos i ≤ rayDist dir pos j) :
    get_pointed_at w dir max_dist pos = some (blockFrom pos, i.val ^^^ 1) := by
  have hscan : scanFaces dir pos = (rayDist dir pos i, i.val) := by
    fin_cases i
    · exact scanFaces_eq_of_min dir pos 0 [] [1, 2, 3, 4, 5] (by decide)
        (by intro j hj he; exact absurd hj (List.not_mem_nil j))
        (fun j _ he => hmin j he) hlt hel
    · exact scanFaces_eq_of_min dir pos 1 [0] [2, 3, 4, 5] (by decide)
        (by intro j hj he; refine hfirst j ?_ he; fin_cases hj; decide)
        (fun j _ he => hmin j he) hlt hel
    · exact scanFaces_eq_of_min dir pos 2 [0, 1] [3, 4, 5] (by decide)
        (by intro j hj he; refine hfirst j ?_ he; fin_cases hj <;> decide)
        (fun j _ he => hmin j he) hlt hel
    · exact scanFaces_eq_of_min dir pos 3 [0, 1, 2] [4, 5] (by decide)
        (by intro j hj he; refine hfirst j ?_ he; fin_cases hj <;> decide)
        (fun j _ he => hmin j he) hlt hel
    · exact scanFaces_eq_of_min dir pos 4 [0, 1, 2, 3] [5] (by decide)
        (by intro j hj he; refine hfirst j ?_ he; fin_cases hj <;> decide)
        (fun j _ he => hmin j he) hlt hel
    · exact scanFaces_eq_of_min dir pos 5 [0, 1, 2, 3, 4] [] (by decide)
        (by intro j hj he; refine hfirst j ?_ he; fin_cases hj <;> decide)
        (fun j _ he => hmin j he) hlt hel
  have hwi : (getBlock w (blockFrom pos) != 0) = true := bne_iff_ne.mpr hin
  rw [get_pointed_at, hwi, pointedGo]
  simp [hscan]

/-- Witness for C8: camera inside the block at the origin looking along
`-z` returns that block with face index `4 ^^^ 1 = 5`, the opposite of the
nearest candidate plane. -/
theorem raycast_inside_block_witness :
    get_pointed_at worldOneBlock (0, 0, -1) 10 (1/2, 1/2, 1/2) =
      some ((0, 0, 0), 5) :=
  raycast_inside_block worldOneBlock (0, 0, -1) 10 (1/2, 1/2, 1/2) 4
    (by decide) (by decide) (by decide) (by decide) (by decide)
